import Mathlib

/-!
# Verification of `comparar_pagos.py`

A shallow embedding in Lean 4 of the payment-reconciliation script
`src/comparar_pagos.py`, together with theorems checking the claims of the
natural-language specification against the embedded code.

Modelling conventions:
* Text is `List Char`; Python `str.strip` / `str.replace` become explicit
  list operations.
* Python `float` amounts are modelled as exact decimal rationals (`ℚ`):
  the parsed value of a finite decimal literal, with PEP 515 digit-group
  underscores validated and removed exactly as `float()` does.  The
  non-finite `inf`/`nan` words also accepted by `float()` have no rational
  counterpart and stay outside this numeric model; the claims about
  `parse_amount` are stated so that they do not depend on them (the
  letters of those words count as float-literal characters, see
  `allowedFloatChar`).
* Python object identity (`id(payment)`) is modelled by pairing each record
  with its position in the loaded list: every loaded record is a distinct
  freshly-allocated dict in the source, so positions are in bijection with
  object identities.
* Fallible code (`KeyError` on a missing CSV column) is modelled with
  `Except String`, carrying the missing column name.
-/

namespace CompararPagos

/-! ## Text utilities (Python `str.strip`, `str.replace`) -/

/-- The whitespace characters stripped by Python's `str.strip()`
(ASCII fragment of the Python whitespace set). -/
def isPyWs (c : Char) : Bool :=
  c = ' ' ∨ c = '\t' ∨ c = '\n' ∨ c = '\r' ∨ c = '\x0b' ∨ c = '\x0c'

/-- `pyStrip p l` removes the characters satisfying `p` from both ends of
`l`; this is Python's `str.strip(chars)`. -/
def pyStrip (p : Char → Bool) (l : List Char) : List Char :=
  ((l.dropWhile p).reverse.dropWhile p).reverse

/-- Python `s.strip()` (default: whitespace). -/
def pyStripWs (l : List Char) : List Char := pyStrip isPyWs l

/-- Python `s.strip('"')`. -/
def isQuote (c : Char) : Bool := c = '"'

def pyStripQuote (l : List Char) : List Char := pyStrip isQuote l

/-- Python `s.replace(',', '')`: every comma is removed. -/
def removeCommas (l : List Char) : List Char := l.filter (fun c => c ≠ ',')

/-- Numeric value of a digit string (`"2024"` ↦ `2024`). -/
def digitsToNat (l : List Char) : Nat :=
  l.foldl (fun n c => 10 * n + (c.toNat - ('0').toNat)) 0

/-! ## `parse_date` (lines 20–36 of the source)

The source calls `datetime.strptime(date_str, fmt)` for
`fmt ∈ ['%d/%m/%Y', '%d/%m/%y']`.  CPython's `_strptime` compiles `%d` to
the regex `3[01]|[12]\d|0[1-9]|[1-9]`, `%m` to `1[0-2]|0[1-9]|[1-9]`,
`%Y` to exactly four digits and `%y` to exactly two digits (mapped to
1969–2068), requires the whole string to be consumed, and `datetime`
construction rejects a day beyond the month length and a year outside
1–9999. -/

structure PyDate where
  year : Nat
  month : Nat
  day : Nat
deriving DecidableEq, Repr

/-- The two formats tried by the source, in order: `%d/%m/%Y`, `%d/%m/%y`. -/
inductive DFmt where
  | y4
  | y2
deriving DecidableEq

/-- Split a character list on `'/'` (always returns at least one part). -/
def splitOnSlash : List Char → List (List Char)
  | [] => [[]]
  | c :: rest =>
    match splitOnSlash rest with
    | [] => if c = '/' then [[], []] else [[c]]
    | p :: ps => if c = '/' then [] :: p :: ps else (c :: p) :: ps

/-- The day field regex of `%d`: one or two digits, value 1–31. -/
def dayPatOk (l : List Char) : Prop :=
  (∀ c ∈ l, c.isDigit) ∧ 1 ≤ l.length ∧ l.length ≤ 2 ∧
    1 ≤ digitsToNat l ∧ digitsToNat l ≤ 31

/-- The month field regex of `%m`: one or two digits, value 1–12. -/
def monthPatOk (l : List Char) : Prop :=
  (∀ c ∈ l, c.isDigit) ∧ 1 ≤ l.length ∧ l.length ≤ 2 ∧
    1 ≤ digitsToNat l ∧ digitsToNat l ≤ 12

/-- The year field regex: `%Y` is exactly four digits, `%y` exactly two. -/
def yearPatOk (f : DFmt) (l : List Char) : Prop :=
  (∀ c ∈ l, c.isDigit) ∧ l.length = (match f with | .y4 => 4 | .y2 => 2)

instance (l : List Char) : Decidable (dayPatOk l) := by
  unfold dayPatOk; infer_instance

instance (l : List Char) : Decidable (monthPatOk l) := by
  unfold monthPatOk; infer_instance

instance (f : DFmt) (l : List Char) : Decidable (yearPatOk f l) := by
  unfold yearPatOk; infer_instance

/-- Year denoted by the year field: `%y` maps `00–68` to `2000–2068` and
`69–99` to `1969–1999`. -/
def yearVal (f : DFmt) (l : List Char) : Nat :=
  match f with
  | .y4 => digitsToNat l
  | .y2 => if digitsToNat l ≤ 68 then 2000 + digitsToNat l else 1900 + digitsToNat l

def isLeapYear (y : Nat) : Prop := y % 4 = 0 ∧ (y % 100 ≠ 0 ∨ y % 400 = 0)

instance (y : Nat) : Decidable (isLeapYear y) := by
  unfold isLeapYear; infer_instance

/-- Length of a month, as enforced by `datetime.__new__`. -/
def daysInMonth (y m : Nat) : Nat :=
  match m with
  | 1 => 31 | 2 => if isLeapYear y then 29 else 28
  | 3 => 31 | 4 => 30 | 5 => 31 | 6 => 30 | 7 => 31
  | 8 => 31 | 9 => 30 | 10 => 31 | 11 => 30 | 12 => 31
  | _ => 0

/-- `datetime.strptime(t, fmt)` restricted to the two formats of the
source: the string must split into exactly day/month/year fields matching
the field regexes, and the resulting date must be calendar-valid
(otherwise `ValueError`, i.e. `none`). -/
def strptime (f : DFmt) (t : List Char) : Option PyDate :=
  match splitOnSlash t with
  | [ds, ms, ys] =>
    if dayPatOk ds ∧ monthPatOk ms ∧ yearPatOk f ys then
      let d := digitsToNat ds
      let m := digitsToNat ms
      let y := yearVal f ys
      if 1 ≤ y ∧ y ≤ 9999 ∧ d ≤ daysInMonth y m then some ⟨y, m, d⟩ else none
    else none
  | _ => none

/-- The `for fmt in formats` loop of `parse_date`: first success wins. -/
def tryFormats : List DFmt → List Char → Option PyDate
  | [], _ => none
  | f :: fs, t =>
    match strptime f t with
    | some d => some d
    | none => tryFormats fs t

/-- `parse_date` (source lines 20–36): strip whitespace, then quotes;
empty text gives `None`; otherwise try `%d/%m/%Y` then `%d/%m/%y`. -/
def parse_date (s : List Char) : Option PyDate :=
  let t := pyStripQuote (pyStripWs s)
  if t = [] then none
  else tryFormats [DFmt.y4, DFmt.y2] t

/-- `get_month_year` (source lines 39–43). -/
def get_month_year : Option PyDate → Option (Nat × Nat)
  | some d => some (d.month, d.year)
  | none => none

/-! ## `parse_amount` (lines 46–57 of the source)

The source calls Python's `float(s)` after stripping whitespace and quotes
and deleting commas.  `float` itself strips surrounding whitespace,
validates and removes PEP 515 digit-group underscores (each `'_'` must sit
between two digits), and accepts an optional sign, a decimal mantissa with
at least one digit, and an optional exponent part.  The value is modelled
as the exact rational denoted by the literal; the non-finite `inf`/`nan`
words also accepted by `float()` are outside this numeric model (no
rational counterpart), and no claim below depends on their behaviour. -/

/-- Consume an optional leading sign, returning the sign (as `+1`/`-1`)
and the rest. -/
def splitSign (l : List Char) : ℤ × List Char :=
  match l with
  | [] => (1, [])
  | c :: rest =>
    if c = '+' then (1, rest)
    else if c = '-' then (-1, rest)
    else (1, c :: rest)

/-- Value of the exponent suffix and the full-consumption check:
`parseExpPart v l` finishes parsing after the mantissa (value `v`).
An empty rest accepts; otherwise only `e`/`E`, an optional sign, and a
nonempty digit run consuming the whole rest. -/
def parseExpPart (v : ℚ) : List Char → Option ℚ
  | [] => some v
  | c :: rest =>
    if c = 'e' ∨ c = 'E' then
      let esgn := (splitSign rest).1
      let r := (splitSign rest).2
      let ed := r.takeWhile Char.isDigit
      let rest2 := r.dropWhile Char.isDigit
      if ed = [] ∨ rest2 ≠ [] then none
      else some (v * (10 : ℚ) ^ (esgn * (digitsToNat ed : ℤ)))
    else none

/-- Mantissa value `ip.fp` as an exact rational. -/
def mantissaVal (ip fp : List Char) : ℚ :=
  (digitsToNat ip : ℚ) + (digitsToNat fp : ℚ) / (10 : ℚ) ^ fp.length

/-- A finite decimal `float` literal (whitespace already stripped,
underscores already removed): optional sign, mantissa (digits, optionally
with one point, at least one digit), optional exponent; anything else
fails (`ValueError`, i.e. `none`). -/
def pyFloatLit (l : List Char) : Option ℚ :=
  let sgn : ℚ := ((splitSign l).1 : ℤ)
  let l1 := (splitSign l).2
  let ip := l1.takeWhile Char.isDigit
  let r1 := l1.dropWhile Char.isDigit
  match r1 with
  | c :: r2 =>
    if c = '.' then
      let fp := r2.takeWhile Char.isDigit
      let r3 := r2.dropWhile Char.isDigit
      if ip = [] ∧ fp = [] then none
      else Option.map (fun q => sgn * q) (parseExpPart (mantissaVal ip fp) r3)
    else if ip = [] then none
    else Option.map (fun q => sgn * q) (parseExpPart (mantissaVal ip []) (c :: r2))
  | [] =>
    if ip = [] then none
    else Option.map (fun q => sgn * q) (parseExpPart (mantissaVal ip []) [])

/-- The PEP 515 digit-group underscore rule enforced by `float()`: each
`'_'` must be immediately preceded and immediately followed by a digit
(`prev` is the character before the current position). -/
def underscoresOkAux : Char → List Char → Bool
  | _, [] => true
  | prev, c :: rest =>
    (if c = '_' then
      prev.isDigit && (match rest with | r :: _ => r.isDigit | [] => false)
    else true) && underscoresOkAux c rest

/-- Underscore validity of a whole literal: the first character has no
digit before it, so a leading underscore is invalid. -/
def underscoresOk (l : List Char) : Bool := underscoresOkAux ' ' l

/-- Core of Python `float(s)` after whitespace stripping: PEP 515
digit-group underscores are validated and removed, and the de-underscored
text must be a finite decimal literal (`pyFloatLit`).  The `inf`/`nan`
words also accepted by `float()` denote non-finite values with no rational
counterpart and are outside this numeric model: the claims below are
stated so as not to depend on them (their letters are in
`allowedFloatChar`). -/
def pyFloatCore (l : List Char) : Option ℚ :=
  if underscoresOk l = true then pyFloatLit (l.filter (fun c => c ≠ '_'))
  else none

/-- Python `float(s)`: strips surrounding whitespace, then parses. -/
def pyFloat (l : List Char) : Option ℚ := pyFloatCore (pyStripWs l)

/-- `parse_amount` (source lines 46–57): `None` on empty or all-whitespace
input; otherwise strip whitespace, strip quotes, delete commas, and
convert with `float` (`None` on `ValueError`). -/
def parse_amount (s : List Char) : Option ℚ :=
  if s = [] ∨ pyStripWs s = [] then none
  else pyFloat (removeCommas (pyStripQuote (pyStripWs s)))

/-! ## Records and loaders (lines 60–108 of the source)

A raw row is the dict produced by `csv.DictReader`: an association list
from column name to raw text.  `row['X']` on a missing column raises
`KeyError('X')`, modelled as `Except.error "X"`. -/

abbrev Row := List (String × List Char)

def lookupCol : Row → String → Option (List Char)
  | [], _ => none
  | (c, v) :: rest, col => if c = col then some v else lookupCol rest col

/-- `row[col]`: the value, or a propagated `KeyError`. -/
def rowGet (row : Row) (col : String) : Except String (List Char) :=
  match lookupCol row col with
  | some v => .ok v
  | none => .error col

/-- A client payment record (the dict built at source lines 73–82). -/
structure ClientRecord where
  fecha : PyDate
  mes_ano : Nat × Nat
  monto : ℚ
  descripcion : List Char
  tipo : List Char
  cuenta : List Char
  numero : List Char
  fecha_str : List Char
deriving DecidableEq, Repr

/-- A provider payment record (the dict built at source lines 100–106). -/
structure ProviderRecord where
  fecha : PyDate
  mes_ano : Nat × Nat
  monto : ℚ
  medio_pago : List Char
  fecha_str : List Char
deriving DecidableEq, Repr

/-- One iteration of the `load_client_file` loop (source lines 68–82):
access `Fecha` and `Monto`, parse both, and keep the record only when the
date parsed and the amount is "truthy" (parsed and nonzero — Python's
`if fecha and monto:`); the remaining columns are accessed only when the
record is kept.  `Except.error` is a propagated `KeyError`. -/
def client_row_convert (row : Row) : Except String (Option ClientRecord) := do
  let fechaS ← rowGet row "Fecha"
  let montoS ← rowGet row "Monto"
  match parse_date fechaS, parse_amount montoS with
  | some f, some m =>
    if m ≠ 0 then do
      let descS ← rowGet row "Descripcion"
      let tipoS ← rowGet row "Tipo_de_Transferencia"
      let cuentaS ← rowGet row "Cuenta"
      let numeroS ← rowGet row "Numero"
      pure (some
        { fecha := f
          -- `get_month_year` applied to the (truthy) parsed date
          mes_ano := (f.month, f.year)
          monto := m
          descripcion := pyStripWs descS
          tipo := pyStripWs tipoS
          cuenta := pyStripWs cuentaS
          numero := pyStripWs numeroS
          fecha_str := pyStripWs fechaS })
    else pure none
  | _, _ => pure none

/-- `load_client_file` (source lines 60–84) over the raw row sequence
yielded by the reader (the file handling itself is the external
collaborator boundary). -/
def load_client_file : List Row → Except String (List ClientRecord)
  | [] => .ok []
  | row :: rest => do
    let rec? ← client_row_convert row
    let others ← load_client_file rest
    match rec? with
    | some r => pure (r :: others)
    | none => pure others

/-- One iteration of the `load_provider_file` loop (source lines 95–106). -/
def provider_row_convert (row : Row) : Except String (Option ProviderRecord) := do
  let fechaS ← rowGet row "Fecha"
  let valorS ← rowGet row "Valor"
  match parse_date fechaS, parse_amount valorS with
  | some f, some m =>
    if m ≠ 0 then do
      let medioS ← rowGet row "Medio_de_Pago"
      pure (some
        { fecha := f
          mes_ano := (f.month, f.year)
          monto := m
          medio_pago := pyStripQuote (pyStripWs medioS)
          fecha_str := pyStripQuote (pyStripWs fechaS) })
    else pure none
  | _, _ => pure none

/-- `load_provider_file` (source lines 87–108). -/
def load_provider_file : List Row → Except String (List ProviderRecord)
  | [] => .ok []
  | row :: rest => do
    let rec? ← provider_row_convert row
    let others ← load_provider_file rest
    match rec? with
    | some r => pure (r :: others)
    | none => pure others

/-! ## Grouping and reconciliation (lines 111–165 of the source) -/

/-- The match group key `(mes, año, monto)`. -/
abbrev MatchKey := Nat × Nat × ℚ

/-- The key built at source line 118:
`(payment['mes_ano'][0], payment['mes_ano'][1], payment['monto'])`. -/
def client_key (c : ClientRecord) : MatchKey := (c.mes_ano.1, c.mes_ano.2, c.monto)

def provider_key (p : ProviderRecord) : MatchKey := (p.mes_ano.1, p.mes_ano.2, p.monto)

/-- `groups[key].append(payment)` on a `defaultdict(list)`: append to the
existing bucket, or add a fresh bucket at the end (dict insertion order). -/
def addToGroups {α : Type} (k : MatchKey) (x : α) :
    List (MatchKey × List α) → List (MatchKey × List α)
  | [] => [(k, [x])]
  | (k₂, l) :: rest =>
    if k = k₂ then (k₂, l ++ [x]) :: rest else (k₂, l) :: addToGroups k x rest

/-- `group_by_month_and_amount` (source lines 111–120), generic over the
record type with its key function (the source is duck-typed over the two
record shapes). -/
def group_by_month_and_amount {α : Type} (key : α → MatchKey) (payments : List α) :
    List (MatchKey × List α) :=
  payments.foldl (fun g p => addToGroups (key p) p g) []

/-- `key in groups` / `groups[key]` dict lookup. -/
def lookupKey {α : Type} (k : MatchKey) : List (MatchKey × List α) → Option (List α)
  | [] => none
  | (k₂, l) :: rest => if k = k₂ then some l else lookupKey k rest

/-- Records paired with their list position, modelling Python object
identity: each loaded record is a distinct dict object, so `id(payment)`
is in bijection with the record's position in the loaded list. -/
def idxFrom {α : Type} : Nat → List α → List (Nat × α)
  | _, [] => []
  | n, x :: xs => (n, x) :: idxFrom (n + 1) xs

def withIdx {α : Type} (l : List α) : List (Nat × α) := idxFrom 0 l

/-- The `matched_client` set built by the loop at source lines 142–154:
for each key of the client grouping also present in the provider grouping,
the ids of the first `min(m, n)` client records of the bucket. -/
def matched_client_ids {α β : Type}
    (cg : List (MatchKey × List (Nat × α))) (pg : List (MatchKey × List (Nat × β))) :
    List Nat :=
  cg.foldl
    (fun acc e =>
      match lookupKey e.1 pg with
      | some pl => acc ++ (e.2.take (min e.2.length pl.length)).map Prod.fst
      | none => acc)
    []

/-- The `matched_provider` set of the same loop: for each such key, the
ids of the first `min(m, n)` provider records of the bucket. -/
def matched_provider_ids {α β : Type}
    (cg : List (MatchKey × List (Nat × α))) (pg : List (MatchKey × List (Nat × β))) :
    List Nat :=
  cg.foldl
    (fun acc e =>
      match lookupKey e.1 pg with
      | some pl => acc ++ (pl.take (min e.2.length pl.length)).map Prod.fst
      | none => acc)
    []

/-- The client grouping of `compare_payments` (source line 131), built
over identity-indexed records. -/
def client_groups (cs : List ClientRecord) : List (MatchKey × List (Nat × ClientRecord)) :=
  group_by_month_and_amount (fun x => client_key x.2) (withIdx cs)

def provider_groups (ps : List ProviderRecord) :
    List (MatchKey × List (Nat × ProviderRecord)) :=
  group_by_month_and_amount (fun x => provider_key x.2) (withIdx ps)

def mcIds (cs : List ClientRecord) (ps : List ProviderRecord) : List Nat :=
  matched_client_ids (client_groups cs) (provider_groups ps)

def mpIds (cs : List ClientRecord) (ps : List ProviderRecord) : List Nat :=
  matched_provider_ids (client_groups cs) (provider_groups ps)

/-- `client_remaining` with identities (source lines 157–159): the client
records whose id is not in `matched_client`, in original order. -/
def only_in_client_idx (cs : List ClientRecord) (ps : List ProviderRecord) :
    List (Nat × ClientRecord) :=
  (withIdx cs).filter (fun x => decide (x.1 ∉ mcIds cs ps))

/-- `provider_remaining` with identities (source lines 161–163). -/
def only_in_provider_idx (cs : List ClientRecord) (ps : List ProviderRecord) :
    List (Nat × ProviderRecord) :=
  (withIdx ps).filter (fun x => decide (x.1 ∉ mpIds cs ps))

/-- `compare_payments` (source lines 123–165). -/
def compare_payments (cs : List ClientRecord) (ps : List ProviderRecord) :
    List ClientRecord × List ProviderRecord :=
  ((only_in_client_idx cs ps).map Prod.snd, (only_in_provider_idx cs ps).map Prod.snd)

/-! ## The report ordering (lines 168–207 of the source)

`print_report` lists each side with `sorted(..., key=lambda x: x['fecha'])`.
Python's `sorted` is a stable ascending sort; any stable sort by the same
key produces the identical sequence, so it is modelled with
`List.insertionSort`, which is stable. -/

/-- `datetime` comparison: lexicographic on (year, month, day). -/
def pyDateLe (a b : PyDate) : Prop :=
  a.year < b.year ∨ (a.year = b.year ∧
    (a.month < b.month ∨ (a.month = b.month ∧ a.day ≤ b.day)))

instance (a b : PyDate) : Decidable (pyDateLe a b) := by
  unfold pyDateLe; infer_instance

def clientDateLe (a b : ClientRecord) : Prop := pyDateLe a.fecha b.fecha

def providerDateLe (a b : ProviderRecord) : Prop := pyDateLe a.fecha b.fecha

instance : DecidableRel clientDateLe := fun a b => by
  unfold clientDateLe; infer_instance

instance : DecidableRel providerDateLe := fun a b => by
  unfold providerDateLe; infer_instance

instance : IsTotal ClientRecord clientDateLe :=
  ⟨fun a b => by unfold clientDateLe pyDateLe; omega⟩

instance : IsTrans ClientRecord clientDateLe :=
  ⟨fun a b c h1 h2 => by
    unfold clientDateLe pyDateLe at h1 h2 ⊢
    omega⟩

instance : IsTotal ProviderRecord providerDateLe :=
  ⟨fun a b => by unfold providerDateLe pyDateLe; omega⟩

instance : IsTrans ProviderRecord providerDateLe :=
  ⟨fun a b c h1 h2 => by
    unfold providerDateLe pyDateLe at h1 h2 ⊢
    omega⟩

/-- The client listing order of `print_report` (source line 181). -/
def report_client_listing (oc : List ClientRecord) : List ClientRecord :=
  List.insertionSort clientDateLe oc

/-- The provider listing order of `print_report` (source line 194). -/
def report_provider_listing (op : List ProviderRecord) : List ProviderRecord :=
  List.insertionSort providerDateLe op

/-! ## Auxiliary definitions used by the verification -/

/-- The ids contributed to `matched_client` by one entry of the client
grouping (one iteration of the loop at source lines 143–154). -/
def contribC {α β : Type} (pg : List (MatchKey × List (Nat × β)))
    (e : MatchKey × List (Nat × α)) : List Nat :=
  match lookupKey e.1 pg with
  | some pl => (e.2.take (min e.2.length pl.length)).map Prod.fst
  | none => []

/-- The ids contributed to `matched_provider` by one entry of the client
grouping. -/
def contribP {α β : Type} (pg : List (MatchKey × List (Nat × β)))
    (e : MatchKey × List (Nat × α)) : List Nat :=
  match lookupKey e.1 pg with
  | some pl => (pl.take (min e.2.length pl.length)).map Prod.fst
  | none => []

/-- The record (if any) that one row contributes to a successful client
load: `none` both on a skipped row and on a row whose access would raise. -/
def client_row_opt (row : Row) : Option ClientRecord :=
  match client_row_convert row with
  | .ok o => o
  | .error _ => none

def provider_row_opt (row : Row) : Option ProviderRecord :=
  match provider_row_convert row with
  | .ok o => o
  | .error _ => none

/-- "The row parses": the loader keeps a record for it. -/
def client_row_keeps (row : Row) : Prop := ∃ r, client_row_convert row = .ok (some r)

def provider_row_keeps (row : Row) : Prop := ∃ r, provider_row_convert row = .ok (some r)

/-! # Lemmas

## Python `strip` -/

theorem dropWhile_eq_self_of_all (p : Char → Bool) (l : List Char)
    (h : ∀ c ∈ l, p c = false) : l.dropWhile p = l := by
  cases l with
  | nil => rfl
  | cons x xs =>
    exact List.dropWhile_cons_of_neg (by simp [h x (List.mem_cons_self x xs)])

theorem dropWhile_eq_nil_of_all (p : Char → Bool) (l : List Char)
    (h : ∀ c ∈ l, p c = true) : l.dropWhile p = [] := by
  induction l with
  | nil => rfl
  | cons x xs ih =>
    rw [List.dropWhile_cons_of_pos (h x (List.mem_cons_self x xs))]
    exact ih (fun c hc => h c (List.mem_cons_of_mem x hc))

theorem pyStrip_eq_self (p : Char → Bool) (l : List Char)
    (h : ∀ c ∈ l, p c = false) : pyStrip p l = l := by
  unfold pyStrip
  rw [dropWhile_eq_self_of_all p l h,
    dropWhile_eq_self_of_all p l.reverse (fun c hc => h c (List.mem_reverse.mp hc)),
    List.reverse_reverse]

theorem pyStrip_sublist (p : Char → Bool) (l : List Char) :
    List.Sublist (pyStrip p l) l := by
  unfold pyStrip
  have h1 : List.Sublist ((l.dropWhile p).reverse.dropWhile p) (l.dropWhile p).reverse :=
    List.dropWhile_sublist p
  have h2 := h1.reverse
  rw [List.reverse_reverse] at h2
  exact h2.trans (List.dropWhile_sublist p)

theorem mem_of_mem_pyStrip {p : Char → Bool} {l : List Char} {c : Char}
    (h : c ∈ pyStrip p l) : c ∈ l :=
  (pyStrip_sublist p l).subset h

/-- Every list is an all-`p` prefix, its `pyStrip p`, and an all-`p`
suffix. -/
theorem pyStrip_decomp (p : Char → Bool) (l : List Char) :
    ∃ a b, l = a ++ pyStrip p l ++ b ∧ (∀ c ∈ a, p c = true) ∧ (∀ c ∈ b, p c = true) := by
  refine ⟨l.takeWhile p, ((l.dropWhile p).reverse.takeWhile p).reverse, ?_, ?_, ?_⟩
  · unfold pyStrip
    conv_lhs => rw [← List.takeWhile_append_dropWhile p l]
    rw [List.append_assoc]
    congr 1
    conv_lhs => rw [← List.reverse_reverse (l.dropWhile p),
      ← List.takeWhile_append_dropWhile p (l.dropWhile p).reverse]
    rw [List.reverse_append]
  · exact fun c hc => List.mem_takeWhile_imp hc
  · exact fun c hc => List.mem_takeWhile_imp (List.mem_reverse.mp hc)

theorem pyStrip_append_left (p : Char → Bool) (a m : List Char)
    (h : ∀ c ∈ a, p c = true) : pyStrip p (a ++ m) = pyStrip p m := by
  unfold pyStrip
  rw [List.dropWhile_append_of_pos h]

theorem pyStrip_append_right (p : Char → Bool) (m b : List Char)
    (h : ∀ c ∈ b, p c = true) : pyStrip p (m ++ b) = pyStrip p m := by
  unfold pyStrip
  rw [List.dropWhile_append]
  split
  · next h1 =>
    rw [List.isEmpty_iff] at h1
    rw [dropWhile_eq_nil_of_all p b h, h1]
  · rw [List.reverse_append,
      List.dropWhile_append_of_pos (fun c hc => h c (List.mem_reverse.mp hc))]

theorem pyStrip_surround (p : Char → Bool) (a m b : List Char)
    (ha : ∀ c ∈ a, p c = true) (hb : ∀ c ∈ b, p c = true) :
    pyStrip p (a ++ m ++ b) = pyStrip p m := by
  rw [List.append_assoc, pyStrip_append_left p a (m ++ b) ha,
    pyStrip_append_right p m b hb]

theorem pyStrip_idem (p : Char → Bool) (l : List Char) :
    pyStrip p (pyStrip p l) = pyStrip p l := by
  obtain ⟨a, b, hl, ha, hb⟩ := pyStrip_decomp p l
  have h := pyStrip_surround p a (pyStrip p l) b ha hb
  rw [← hl] at h
  exact h.symm

theorem pyStrip_eq_nil_iff (p : Char → Bool) (l : List Char) :
    pyStrip p l = [] ↔ ∀ c ∈ l, p c = true := by
  constructor
  · intro h c hc
    obtain ⟨a, b, hl, ha, hb⟩ := pyStrip_decomp p l
    rw [h, List.append_nil] at hl
    subst hl
    rcases List.mem_append.mp hc with h2 | h2
    · exact ha c h2
    · exact hb c h2
  · intro h
    unfold pyStrip
    rw [dropWhile_eq_nil_of_all p l h]
    rfl

/-! ## `removeCommas` -/

theorem pyStripQuote_eq_self (l : List Char) (h : ∀ c ∈ l, c ≠ '"') :
    pyStripQuote l = l :=
  pyStrip_eq_self isQuote l (fun c hc => by simp [isQuote, h c hc])

theorem pyStripWs_idem (l : List Char) : pyStripWs (pyStripWs l) = pyStripWs l :=
  pyStrip_idem isPyWs l

theorem removeCommas_eq_self (l : List Char) (h : ∀ c ∈ l, c ≠ ',') :
    removeCommas l = l := by
  unfold removeCommas
  rw [List.filter_eq_self]
  intro a ha
  simpa using h a ha

theorem mem_removeCommas {l : List Char} {c : Char} (h : c ∈ removeCommas l) :
    c ∈ l ∧ c ≠ ',' := by
  unfold removeCommas at h
  rw [List.mem_filter] at h
  simpa using h

theorem removeCommas_append (a b : List Char) :
    removeCommas (a ++ b) = removeCommas a ++ removeCommas b := by
  unfold removeCommas
  exact List.filter_append a b

/-- The central commutation for claim C9: stripping whitespace before or
after deleting commas leads to the same whitespace-stripped result. -/
theorem stripWs_removeCommas_stripWs (t : List Char) :
    pyStripWs (removeCommas (pyStripWs t)) = pyStripWs (removeCommas t) := by
  obtain ⟨a, b, hl, ha, hb⟩ := pyStrip_decomp isPyWs t
  have hwa : ∀ c ∈ a, c ≠ ',' := by
    intro c hc hcomma
    have := ha c hc
    rw [hcomma] at this
    simp [isPyWs] at this
  have hwb : ∀ c ∈ b, c ≠ ',' := by
    intro c hc hcomma
    have := hb c hc
    rw [hcomma] at this
    simp [isPyWs] at this
  conv_rhs => rw [hl]
  rw [removeCommas_append, removeCommas_append, removeCommas_eq_self a hwa,
    removeCommas_eq_self b hwb]
  exact (pyStrip_surround isPyWs a _ b ha hb).symm

/-- Claim C9 (amended): for every amount text that contains no quote
character, parsing after removing all commas agrees with parsing the
original text: `parse_amount (removeCommas t) = parse_amount t`. -/
theorem claim_C9 (t : List Char) (hq : ∀ c ∈ t, c ≠ '"') :
    parse_amount (removeCommas t) = parse_amount t := by
  by_cases hw : pyStripWs t = []
  · have hall : ∀ c ∈ t, isPyWs c = true := (pyStrip_eq_nil_iff isPyWs t).mp hw
    have hid : removeCommas t = t := removeCommas_eq_self t (fun c hc hcomma => by
      have h1 := hall c hc
      rw [hcomma] at h1
      simp [isPyWs] at h1)
    rw [hid]
  · have ht : t ≠ [] := by rintro rfl; exact hw rfl
    have hqs : pyStripQuote (pyStripWs t) = pyStripWs t :=
      pyStripQuote_eq_self _ (fun c hc => hq c (mem_of_mem_pyStrip hc))
    have hrhs : parse_amount t = pyFloatCore (pyStripWs (removeCommas t)) := by
      unfold parse_amount
      rw [if_neg (by push_neg; exact ⟨ht, hw⟩), hqs]
      unfold pyFloat
      rw [stripWs_removeCommas_stripWs]
    by_cases hrw : pyStripWs (removeCommas t) = []
    · have hlhs : parse_amount (removeCommas t) = none := by
        unfold parse_amount
        rw [if_pos (Or.inr hrw)]
      rw [hlhs, hrhs, hrw]
      rfl
    · have hrcq : ∀ c ∈ pyStripWs (removeCommas t), c ≠ '"' := fun c hc =>
        hq c (mem_removeCommas (mem_of_mem_pyStrip hc)).1
      have hrcc : ∀ c ∈ pyStripWs (removeCommas t), c ≠ ',' := fun c hc =>
        (mem_removeCommas (mem_of_mem_pyStrip hc)).2
      have hrce : removeCommas t ≠ [] := fun h => hrw (by rw [h]; rfl)
      have hlhs : parse_amount (removeCommas t) =
          pyFloatCore (pyStripWs (removeCommas t)) := by
        unfold parse_amount
        rw [if_neg (by push_neg; exact ⟨hrce, hrw⟩),
          pyStripQuote_eq_self _ hrcq, removeCommas_eq_self _ hrcc]
        unfold pyFloat
        rw [pyStripWs_idem]
      rw [hlhs, hrhs]

/-- Claim C9 counterexample: for the amount text `"5",` (a quoted five
followed by a comma), removing the comma first changes the result — the
comma after the closing quote blocks the quote-stripping, so the original
text fails to parse while the comma-free text parses to `5`. -/
theorem claim_C9_counterexample :
    ',' ∈ ('"' :: '5' :: '"' :: ',' :: []) ∧
    parse_amount (removeCommas ('"' :: '5' :: '"' :: ',' :: [])) = some 5 ∧
    parse_amount ('"' :: '5' :: '"' :: ',' :: []) = none := by
  refine ⟨by decide, ?_, by decide⟩
  have h : parse_amount (removeCommas ('"' :: '5' :: '"' :: ',' :: [])) =
      some (((1 : ℤ) : ℚ) * mantissaVal ['5'] []) := rfl
  have h2 : digitsToNat ['5'] = 5 := by decide
  have h3 : digitsToNat [] = 0 := rfl
  rw [h]
  norm_num [mantissaVal, h2, h3]

/-- Claim C9 witness: the amended claim applied at the concrete
comma-separated amount text `1,234.56`. -/
theorem claim_C9_witness :
    parse_amount (removeCommas ('1' :: ',' :: '2' :: '3' :: '4' :: '.' :: '5' :: '6' :: [])) =
      parse_amount ('1' :: ',' :: '2' :: '3' :: '4' :: '.' :: '5' :: '6' :: []) :=
  claim_C9 _ (by decide)

/-! ## Soundness of the `float` literal parser -/

theorem takeWhile_eq_self_of_all (p : Char → Bool) (l : List Char)
    (h : ∀ c ∈ l, p c = true) : l.takeWhile p = l := by
  induction l with
  | nil => rfl
  | cons x xs ih =>
    rw [List.takeWhile_cons_of_pos (h x (List.mem_cons_self x xs))]
    rw [ih (fun c hc => h c (List.mem_cons_of_mem x hc))]

theorem underscoresOkAux_of_no_underscore (l : List Char) :
    ∀ prev, (∀ c ∈ l, c ≠ '_') → underscoresOkAux prev l = true := by
  induction l with
  | nil => intro prev _; rfl
  | cons c rest ih =>
    intro prev h
    simp only [underscoresOkAux, if_neg (h c (List.mem_cons_self c rest)),
      Bool.true_and]
    exact ih c (fun c₂ hc₂ => h c₂ (List.mem_cons_of_mem c hc₂))

theorem underscoresOk_of_no_underscore (l : List Char)
    (h : ∀ c ∈ l, c ≠ '_') : underscoresOk l = true :=
  underscoresOkAux_of_no_underscore l ' ' h

theorem filter_underscore_eq_self (l : List Char) (h : ∀ c ∈ l, c ≠ '_') :
    l.filter (fun c => c ≠ '_') = l :=
  List.filter_eq_self.mpr (fun c hc => by simp [h c hc])

theorem isDigit_not_ws {c : Char} (h : c.isDigit = true) : isPyWs c = false := by
  have h1 : c ≠ ' ' := by rintro rfl; exact absurd h (by decide)
  have h2 : c ≠ '\t' := by rintro rfl; exact absurd h (by decide)
  have h3 : c ≠ '\n' := by rintro rfl; exact absurd h (by decide)
  have h4 : c ≠ '\r' := by rintro rfl; exact absurd h (by decide)
  have h5 : c ≠ '\x0b' := by rintro rfl; exact absurd h (by decide)
  have h6 : c ≠ '\x0c' := by rintro rfl; exact absurd h (by decide)
  simp [isPyWs, h1, h2, h3, h4, h5, h6]

/-- When the residual text is a nonempty digit string, `parse_amount`
returns exactly the decimal value of those digits. -/
theorem parse_amount_digits (s ds : List Char)
    (hres : removeCommas (pyStripQuote (pyStripWs s)) = ds) (hne : ds ≠ [])
    (hdig : ∀ c ∈ ds, c.isDigit = true) :
    parse_amount s = some ((digitsToNat ds : ℚ)) := by
  have hw : pyStripWs s ≠ [] := by
    intro h0
    apply hne
    rw [← hres, h0]
    rfl
  have hs : s ≠ [] := by rintro rfl; exact hw rfl
  unfold parse_amount
  rw [if_neg (by push_neg; exact ⟨hs, hw⟩), hres]
  unfold pyFloat
  have hds : pyStripWs ds = ds :=
    pyStrip_eq_self _ _ (fun c hc => isDigit_not_ws (hdig c hc))
  rw [hds]
  have hnu : ∀ c ∈ ds, c ≠ '_' := by
    intro c hc
    have hd := hdig c hc
    rintro rfl
    exact absurd hd (by decide)
  unfold pyFloatCore
  rw [if_pos (underscoresOk_of_no_underscore ds hnu),
    filter_underscore_eq_self ds hnu]
  have hsplit : splitSign ds = (1, ds) := by
    cases ds with
    | nil => cases hne rfl
    | cons c r =>
      have hd := hdig c (List.mem_cons_self c r)
      have h1 : c ≠ '+' := by rintro rfl; exact absurd hd (by decide)
      have h2 : c ≠ '-' := by rintro rfl; exact absurd hd (by decide)
      simp [splitSign, h1, h2]
  have htw : List.takeWhile Char.isDigit ds = ds :=
    takeWhile_eq_self_of_all _ _ hdig
  have hdw : List.dropWhile Char.isDigit ds = [] :=
    dropWhile_eq_nil_of_all _ _ hdig
  simp only [pyFloatLit, hsplit, htw, hdw]
  rw [if_neg hne]
  have hz : digitsToNat ([] : List Char) = 0 := rfl
  simp [parseExpPart, mantissaVal, hz]

theorem lookup_addToGroups {α : Type} (k k₂ : MatchKey) (x : α)
    (g : List (MatchKey × List α)) :
    lookupKey k (addToGroups k₂ x g) =
      if k = k₂ then some (((lookupKey k g).getD []) ++ [x]) else lookupKey k g := by
  induction g with
  | nil =>
    by_cases h1 : k = k₂
    · subst h1; simp [addToGroups, lookupKey]
    · simp [addToGroups, lookupKey, h1]
  | cons e rest ih =>
    obtain ⟨k₃, l⟩ := e
    by_cases h1 : k₂ = k₃
    · subst h1
      by_cases h2 : k = k₂
      · subst h2; simp [addToGroups, lookupKey]
      · simp [addToGroups, lookupKey, h2]
    · by_cases h2 : k = k₃
      · subst h2
        have hk2 : ¬ k = k₂ := fun h => h1 (by rw [← h])
        simp [addToGroups, lookupKey, h1, hk2, fun h => h1 (Eq.symm h)]
      · simp [addToGroups, lookupKey, h1, h2, fun h => h1 (Eq.symm h), ih]

theorem keys_addToGroups {α : Type} (k : MatchKey) (x : α)
    (g : List (MatchKey × List α)) :
    (addToGroups k x g).map Prod.fst =
      if (lookupKey k g).isSome then g.map Prod.fst else g.map Prod.fst ++ [k] := by
  induction g with
  | nil => simp [addToGroups, lookupKey]
  | cons e rest ih =>
    obtain ⟨k₃, l⟩ := e
    by_cases h1 : k = k₃
    · subst h1
      simp [addToGroups, lookupKey]
    · simp only [addToGroups, lookupKey, if_neg h1, if_neg (fun h => h1 (Eq.symm h)),
        List.map_cons, ih]
      by_cases h2 : (lookupKey k rest).isSome
      · simp [h2]
      · simp [h2]

theorem lookup_none_iff {α : Type} (k : MatchKey) (g : List (MatchKey × List α)) :
    lookupKey k g = none ↔ k ∉ g.map Prod.fst := by
  induction g with
  | nil => simp [lookupKey]
  | cons e rest ih =>
    obtain ⟨k₃, l⟩ := e
    simp only [lookupKey, List.map_cons, List.mem_cons]
    split_ifs with h1
    · simp [h1]
    · simp [h1, ih]

theorem group_append {α : Type} (key : α → MatchKey) (l : List α) (x : α) :
    group_by_month_and_amount key (l ++ [x]) =
      addToGroups (key x) x (group_by_month_and_amount key l) := by
  unfold group_by_month_and_amount
  rw [List.foldl_append]
  rfl

theorem lookup_group {α : Type} (key : α → MatchKey) (l : List α) (k : MatchKey) :
    lookupKey k (group_by_month_and_amount key l) =
      (if (l.filter (fun a => decide (key a = k))).isEmpty then none
        else some (l.filter (fun a => decide (key a = k)))) := by
  induction l using List.reverseRecOn with
  | nil => simp [group_by_month_and_amount, lookupKey]
  | append_singleton l x ih =>
    rw [group_append, lookup_addToGroups, List.filter_append]
    by_cases hk : k = key x
    · have hfx : List.filter (fun a => decide (key a = k)) [x] = [x] := by
        simp [List.filter, hk.symm]
      rw [if_pos hk, ih, hfx]
      by_cases hfl : (l.filter (fun a => decide (key a = k))).isEmpty
      · rw [List.isEmpty_iff] at hfl
        rw [hfl]
        simp
      · rw [if_neg hfl]
        have h2 : ¬ (l.filter (fun a => decide (key a = k)) ++ [x]).isEmpty := by
          simp
        rw [if_neg h2]
        simp
    · have hxk : ¬ key x = k := fun h => hk h.symm
      have hfx : List.filter (fun a => decide (key a = k)) [x] = [] := by
        simp [List.filter_cons, hxk]
      rw [if_neg hk, ih, hfx, List.append_nil]

theorem keys_nodup_group {α : Type} (key : α → MatchKey) (l : List α) :
    ((group_by_month_and_amount key l).map Prod.fst).Nodup := by
  induction l using List.reverseRecOn with
  | nil => simp [group_by_month_and_amount]
  | append_singleton l x ih =>
    rw [group_append, keys_addToGroups]
    split_ifs with h1
    · exact ih
    · rw [List.nodup_append]
      refine ⟨ih, List.nodup_singleton _, ?_⟩
      intro a ha hax
      rw [List.mem_singleton] at hax
      subst hax
      have h2 : lookupKey (key x) (group_by_month_and_amount key l) = none := by
        cases h3 : lookupKey (key x) (group_by_month_and_amount key l) with
        | none => rfl
        | some v => rw [h3] at h1; simp at h1
      exact (lookup_none_iff _ _).mp h2 ha

theorem lookup_of_mem_nodupKeys {α : Type} {g : List (MatchKey × List α)}
    (hnd : (g.map Prod.fst).Nodup) {k : MatchKey} {L : List α}
    (hm : (k, L) ∈ g) : lookupKey k g = some L := by
  induction g with
  | nil => cases hm
  | cons e rest ih =>
    obtain ⟨k₃, l⟩ := e
    rcases List.mem_cons.mp hm with heq | hmem
    · injection heq with h1 h2
      subst h1; subst h2
      simp [lookupKey]
    · have hk : k ≠ k₃ := by
        rintro rfl
        have : k ∈ rest.map Prod.fst := List.mem_map.mpr ⟨(k, L), hmem, rfl⟩
        exact (List.nodup_cons.mp hnd).1 this
      rw [lookupKey, if_neg hk]
      exact ih (List.nodup_cons.mp hnd).2 hmem

theorem mem_of_lookup {α : Type} {g : List (MatchKey × List α)} {k : MatchKey}
    {L : List α} (h : lookupKey k g = some L) : (k, L) ∈ g := by
  induction g with
  | nil => cases h
  | cons e rest ih =>
    obtain ⟨k₃, l⟩ := e
    rw [lookupKey] at h
    split_ifs at h with h1
    · injection h with h2
      subst h1; subst h2
      exact List.mem_cons_self _ _
    · exact List.mem_cons_of_mem _ (ih h)

/-! ## Indexed records -/

theorem mem_idxFrom {α : Type} {x : Nat × α} : ∀ {n : Nat} {l : List α},
    x ∈ idxFrom n l ↔ n ≤ x.1 ∧ l[x.1 - n]? = some x.2 := by
  intro n l
  induction l generalizing n with
  | nil => simp [idxFrom]
  | cons y ys ih =>
    simp only [idxFrom, List.mem_cons, ih]
    constructor
    · rintro (rfl | ⟨h1, h2⟩)
      · simp
      · refine ⟨by omega, ?_⟩
        have h3 : x.1 - n = (x.1 - (n + 1)) + 1 := by omega
        rw [h3]
        simpa using h2
    · rintro ⟨h1, h2⟩
      by_cases he : x.1 = n
      · left
        rw [he, Nat.sub_self] at h2
        simp only [List.getElem?_cons_zero] at h2
        injection h2 with h3
        obtain ⟨x1, x2⟩ := x
        simp only at he h3
        rw [he, h3]
      · right
        refine ⟨by omega, ?_⟩
        have h3 : x.1 - n = (x.1 - (n + 1)) + 1 := by omega
        rw [h3] at h2
        simpa using h2

theorem idxFrom_fst_inj {α : Type} {n : Nat} {l : List α} {x y : Nat × α}
    (hx : x ∈ idxFrom n l) (hy : y ∈ idxFrom n l) (h : x.1 = y.1) : x = y := by
  rw [mem_idxFrom] at hx hy
  obtain ⟨h1, h2⟩ := hx
  obtain ⟨h3, h4⟩ := hy
  rw [h] at h2
  rw [h2] at h4
  injection h4 with h5
  obtain ⟨x1, x2⟩ := x
  obtain ⟨y1, y2⟩ := y
  simp only at h h5
  rw [h, h5]

theorem idxFrom_nodup {α : Type} : ∀ (n : Nat) (l : List α), (idxFrom n l).Nodup := by
  intro n l
  induction l generalizing n with
  | nil => simp [idxFrom]
  | cons y ys ih =>
    rw [idxFrom, List.nodup_cons]
    refine ⟨?_, ih (n + 1)⟩
    intro hmem
    have := (mem_idxFrom.mp hmem).1
    omega

/-! ## Matched-id lemmas -/

theorem mem_matched_client_ids {α β : Type} (cg : List (MatchKey × List (Nat × α)))
    (pg : List (MatchKey × List (Nat × β))) (i : Nat) :
    i ∈ matched_client_ids cg pg ↔ ∃ e ∈ cg, i ∈ contribC pg e := by
  have key : ∀ (cg₂ : List (MatchKey × List (Nat × α))) (acc : List Nat),
      i ∈ cg₂.foldl (fun acc e =>
          match lookupKey e.1 pg with
          | some pl => acc ++ (e.2.take (min e.2.length pl.length)).map Prod.fst
          | none => acc) acc ↔
        i ∈ acc ∨ ∃ e ∈ cg₂, i ∈ contribC pg e := by
    intro cg₂
    induction cg₂ with
    | nil => intro acc; simp
    | cons e rest ih =>
      intro acc
      rw [List.foldl_cons,
        show (match lookupKey e.1 pg with
          | some pl => acc ++ (e.2.take (min e.2.length pl.length)).map Prod.fst
          | none => acc) = acc ++ contribC pg e from by
            unfold contribC; cases lookupKey e.1 pg <;> simp,
        ih]
      simp only [List.mem_append, List.mem_cons]
      constructor
      · rintro ((h | h) | ⟨e₂, h2, h3⟩)
        · exact Or.inl h
        · exact Or.inr ⟨e, Or.inl rfl, h⟩
        · exact Or.inr ⟨e₂, Or.inr h2, h3⟩
      · rintro (h | ⟨e₂, (rfl | h2), h3⟩)
        · exact Or.inl (Or.inl h)
        · exact Or.inl (Or.inr h3)
        · exact Or.inr ⟨e₂, h2, h3⟩
  have h0 := key cg []
  simpa [matched_client_ids] using h0

theorem mem_matched_provider_ids {α β : Type} (cg : List (MatchKey × List (Nat × α)))
    (pg : List (MatchKey × List (Nat × β))) (i : Nat) :
    i ∈ matched_provider_ids cg pg ↔ ∃ e ∈ cg, i ∈ contribP pg e := by
  have key : ∀ (cg₂ : List (MatchKey × List (Nat × α))) (acc : List Nat),
      i ∈ cg₂.foldl (fun acc e =>
          match lookupKey e.1 pg with
          | some pl => acc ++ (pl.take (min e.2.length pl.length)).map Prod.fst
          | none => acc) acc ↔
        i ∈ acc ∨ ∃ e ∈ cg₂, i ∈ contribP pg e := by
    intro cg₂
    induction cg₂ with
    | nil => intro acc; simp
    | cons e rest ih =>
      intro acc
      rw [List.foldl_cons,
        show (match lookupKey e.1 pg with
          | some pl => acc ++ (pl.take (min e.2.length pl.length)).map Prod.fst
          | none => acc) = acc ++ contribP pg e from by
            unfold contribP; cases lookupKey e.1 pg <;> simp,
        ih]
      simp only [List.mem_append, List.mem_cons]
      constructor
      · rintro ((h | h) | ⟨e₂, h2, h3⟩)
        · exact Or.inl h
        · exact Or.inr ⟨e, Or.inl rfl, h⟩
        · exact Or.inr ⟨e₂, Or.inr h2, h3⟩
      · rintro (h | ⟨e₂, (rfl | h2), h3⟩)
        · exact Or.inl (Or.inl h)
        · exact Or.inl (Or.inr h3)
        · exact Or.inr ⟨e₂, h2, h3⟩
  have h0 := key cg []
  simpa [matched_provider_ids] using h0

/-! ## The pairing invariant (claim C1) -/

/-- A client-grouping entry is the filter of the identity-indexed records
by its key, and is found by lookup. -/
theorem client_group_filter {cs : List ClientRecord} {k : MatchKey}
    {cl : List (Nat × ClientRecord)} (hc : (k, cl) ∈ client_groups cs) :
    lookupKey k (client_groups cs) = some cl ∧
      cl = (withIdx cs).filter (fun x => decide (client_key x.2 = k)) := by
  have hlc : lookupKey k (client_groups cs) = some cl :=
    lookup_of_mem_nodupKeys (keys_nodup_group _ _) hc
  refine ⟨hlc, ?_⟩
  have h := lookup_group (fun x => client_key x.2) (withIdx cs) k
  rw [show group_by_month_and_amount (fun x => client_key x.2) (withIdx cs) =
    client_groups cs from rfl, hlc] at h
  split_ifs at h with hie
  exact Option.some.inj h

theorem provider_group_filter {ps : List ProviderRecord} {k : MatchKey}
    {pl : List (Nat × ProviderRecord)} (hp : (k, pl) ∈ provider_groups ps) :
    lookupKey k (provider_groups ps) = some pl ∧
      pl = (withIdx ps).filter (fun x => decide (provider_key x.2 = k)) := by
  have hlp : lookupKey k (provider_groups ps) = some pl :=
    lookup_of_mem_nodupKeys (keys_nodup_group _ _) hp
  refine ⟨hlp, ?_⟩
  have h := lookup_group (fun x => provider_key x.2) (withIdx ps) k
  rw [show group_by_month_and_amount (fun x => provider_key x.2) (withIdx ps) =
    provider_groups ps from rfl, hlp] at h
  split_ifs at h with hie
  exact Option.some.inj h

theorem matched_client_take {cs : List ClientRecord} {ps : List ProviderRecord}
    {k : MatchKey} {cl : List (Nat × ClientRecord)} {pl : List (Nat × ProviderRecord)}
    (hc : (k, cl) ∈ client_groups cs) (hp : (k, pl) ∈ provider_groups ps) :
    ∀ x ∈ cl.take (min cl.length pl.length), x.1 ∈ mcIds cs ps := by
  intro x hx
  rw [mcIds, mem_matched_client_ids]
  refine ⟨(k, cl), hc, ?_⟩
  rw [contribC, (provider_group_filter hp).1]
  exact List.mem_map.mpr ⟨x, hx, rfl⟩

theorem matched_provider_take {cs : List ClientRecord} {ps : List ProviderRecord}
    {k : MatchKey} {cl : List (Nat × ClientRecord)} {pl : List (Nat × ProviderRecord)}
    (hc : (k, cl) ∈ client_groups cs) (hp : (k, pl) ∈ provider_groups ps) :
    ∀ y ∈ pl.take (min cl.length pl.length), y.1 ∈ mpIds cs ps := by
  intro y hy
  rw [mpIds, mem_matched_provider_ids]
  refine ⟨(k, cl), hc, ?_⟩
  rw [contribP, (provider_group_filter hp).1]
  exact List.mem_map.mpr ⟨y, hy, rfl⟩

theorem matched_client_drop {cs : List ClientRecord} {ps : List ProviderRecord}
    {k : MatchKey} {cl : List (Nat × ClientRecord)} {pl : List (Nat × ProviderRecord)}
    (hc : (k, cl) ∈ client_groups cs) (hp : (k, pl) ∈ provider_groups ps) :
    ∀ x ∈ cl.drop (min cl.length pl.length), ¬ x.1 ∈ mcIds cs ps := by
  intro x hx hmem
  rw [mcIds, mem_matched_client_ids] at hmem
  obtain ⟨⟨k₂, cl₂⟩, he, hce⟩ := hmem
  rw [contribC] at hce
  dsimp only at hce
  cases hlk : lookupKey k₂ (provider_groups ps) with
  | none => rw [hlk] at hce; cases hce
  | some pl₂ =>
    rw [hlk] at hce
    obtain ⟨y, hy, hyx⟩ := List.mem_map.mp hce
    have hy2 : y ∈ cl₂ := List.mem_of_mem_take hy
    obtain ⟨hlc₂, hf₂⟩ := client_group_filter he
    obtain ⟨hlc, hf⟩ := client_group_filter hc
    obtain ⟨hlp, -⟩ := provider_group_filter hp
    have hymem : y ∈ withIdx cs ∧ client_key y.2 = k₂ := by
      rw [hf₂] at hy2
      have h2 := List.mem_filter.mp hy2
      exact ⟨h2.1, of_decide_eq_true h2.2⟩
    have hxcl : x ∈ cl := List.mem_of_mem_drop hx
    have hxmem : x ∈ withIdx cs ∧ client_key x.2 = k := by
      rw [hf] at hxcl
      have h2 := List.mem_filter.mp hxcl
      exact ⟨h2.1, of_decide_eq_true h2.2⟩
    have hxy : y = x := idxFrom_fst_inj hymem.1 hxmem.1 hyx
    have hkk : k₂ = k := by rw [← hymem.2, hxy, hxmem.2]
    subst hkk
    rw [hlc] at hlc₂
    have hcl₂ : cl = cl₂ := Option.some.inj hlc₂
    rw [hlk] at hlp
    have hpl₂ : pl = pl₂ := (Option.some.inj hlp).symm
    rw [← hcl₂, ← hpl₂, hxy] at hy
    have hnd : cl.Nodup := by
      rw [hf]
      exact List.Nodup.filter _ (idxFrom_nodup 0 cs)
    have hnd2 := hnd
    rw [← List.take_append_drop (min cl.length pl.length) cl] at hnd2
    have hdisj := List.disjoint_of_nodup_append hnd2
    exact hdisj hy hx

theorem matched_provider_drop {cs : List ClientRecord} {ps : List ProviderRecord}
    {k : MatchKey} {cl : List (Nat × ClientRecord)} {pl : List (Nat × ProviderRecord)}
    (hc : (k, cl) ∈ client_groups cs) (hp : (k, pl) ∈ provider_groups ps) :
    ∀ y ∈ pl.drop (min cl.length pl.length), ¬ y.1 ∈ mpIds cs ps := by
  intro y hy hmem
  rw [mpIds, mem_matched_provider_ids] at hmem
  obtain ⟨⟨k₂, cl₂⟩, he, hce⟩ := hmem
  rw [contribP] at hce
  dsimp only at hce
  cases hlk : lookupKey k₂ (provider_groups ps) with
  | none => rw [hlk] at hce; cases hce
  | some pl₂ =>
    rw [hlk] at hce
    obtain ⟨z, hz, hzy⟩ := List.mem_map.mp hce
    have hz2 : z ∈ pl₂ := List.mem_of_mem_take hz
    obtain ⟨hlc₂, -⟩ := client_group_filter he
    obtain ⟨hlc, -⟩ := client_group_filter hc
    obtain ⟨hlp, hfp⟩ := provider_group_filter hp
    have hfp₂ : pl₂ = (withIdx ps).filter (fun x => decide (provider_key x.2 = k₂)) :=
      (provider_group_filter (mem_of_lookup hlk)).2
    have hzmem : z ∈ withIdx ps ∧ provider_key z.2 = k₂ := by
      rw [hfp₂] at hz2
      have h2 := List.mem_filter.mp hz2
      exact ⟨h2.1, of_decide_eq_true h2.2⟩
    have hypl : y ∈ pl := List.mem_of_mem_drop hy
    have hymem : y ∈ withIdx ps ∧ provider_key y.2 = k := by
      rw [hfp] at hypl
      have h2 := List.mem_filter.mp hypl
      exact ⟨h2.1, of_decide_eq_true h2.2⟩
    have hzy2 : z = y := idxFrom_fst_inj hzmem.1 hymem.1 hzy
    have hkk : k₂ = k := by rw [← hzmem.2, hzy2, hymem.2]
    subst hkk
    rw [hlc] at hlc₂
    have hcl₂ : cl = cl₂ := Option.some.inj hlc₂
    rw [hlk] at hlp
    have hpl₂ : pl = pl₂ := (Option.some.inj hlp).symm
    rw [← hcl₂, ← hpl₂, hzy2] at hz
    have hnd : pl.Nodup := by
      rw [hfp]
      exact List.Nodup.filter _ (idxFrom_nodup 0 ps)
    have hnd2 := hnd
    rw [← List.take_append_drop (min cl.length pl.length) pl] at hnd2
    have hdisj := List.disjoint_of_nodup_append hnd2
    exact hdisj hz hy

/-- Claim C1: for every match group key present in both groupings, with
client bucket `cl` (m records) and provider bucket `pl` (n records), the
reconciliation marks exactly `min m n` records of each side as matched,
pairing the i-th client record with the i-th provider record of the
bucket (insertion order), and the remaining `|m − n|` records of the
larger side stay unmatched. -/
theorem claim_C1 (cs : List ClientRecord) (ps : List ProviderRecord)
    (k : MatchKey) (cl : List (Nat × ClientRecord)) (pl : List (Nat × ProviderRecord))
    (hc : (k, cl) ∈ client_groups cs) (hp : (k, pl) ∈ provider_groups ps) :
    (∀ i x y, i < min cl.length pl.length → cl[i]? = some x → pl[i]? = some y →
      x.1 ∈ mcIds cs ps ∧ y.1 ∈ mpIds cs ps) ∧
    cl.countP (fun x => decide (x.1 ∈ mcIds cs ps)) = min cl.length pl.length ∧
    pl.countP (fun y => decide (y.1 ∈ mpIds cs ps)) = min cl.length pl.length ∧
    cl.countP (fun x => decide (¬ x.1 ∈ mcIds cs ps)) =
      cl.length - min cl.length pl.length ∧
    pl.countP (fun y => decide (¬ y.1 ∈ mpIds cs ps)) =
      pl.length - min cl.length pl.length := by
  have hA := matched_client_take hc hp
  have hB := matched_client_drop hc hp
  have hC := matched_provider_take hc hp
  have hD := matched_provider_drop hc hp
  refine ⟨?_, ?_, ?_, ?_, ?_⟩
  · intro i x y hi hx hy
    constructor
    · apply hA
      have h2 : (cl.take (min cl.length pl.length))[i]? = some x := by
        rw [List.getElem?_take_of_lt hi]
        exact hx
      exact List.getElem?_mem h2
    · apply hC
      have h2 : (pl.take (min cl.length pl.length))[i]? = some y := by
        rw [List.getElem?_take_of_lt hi]
        exact hy
      exact List.getElem?_mem h2
  · conv_lhs => rw [← List.take_append_drop (min cl.length pl.length) cl]
    rw [List.countP_append]
    have h1 : (cl.take (min cl.length pl.length)).countP
        (fun x => decide (x.1 ∈ mcIds cs ps)) =
        (cl.take (min cl.length pl.length)).length := by
      rw [List.countP_eq_length]
      intro a ha
      simpa using hA a ha
    have h2 : (cl.drop (min cl.length pl.length)).countP
        (fun x => decide (x.1 ∈ mcIds cs ps)) = 0 := by
      rw [List.countP_eq_zero]
      intro a ha
      simpa using hB a ha
    rw [h1, h2, List.length_take]
    omega
  · conv_lhs => rw [← List.take_append_drop (min cl.length pl.length) pl]
    rw [List.countP_append]
    have h1 : (pl.take (min cl.length pl.length)).countP
        (fun y => decide (y.1 ∈ mpIds cs ps)) =
        (pl.take (min cl.length pl.length)).length := by
      rw [List.countP_eq_length]
      intro a ha
      simpa using hC a ha
    have h2 : (pl.drop (min cl.length pl.length)).countP
        (fun y => decide (y.1 ∈ mpIds cs ps)) = 0 := by
      rw [List.countP_eq_zero]
      intro a ha
      simpa using hD a ha
    rw [h1, h2, List.length_take]
    omega
  · conv_lhs => rw [← List.take_append_drop (min cl.length pl.length) cl]
    rw [List.countP_append]
    have h1 : (cl.take (min cl.length pl.length)).countP
        (fun x => decide (¬ x.1 ∈ mcIds cs ps)) = 0 := by
      rw [List.countP_eq_zero]
      intro a ha
      simpa using hA a ha
    have h2 : (cl.drop (min cl.length pl.length)).countP
        (fun x => decide (¬ x.1 ∈ mcIds cs ps)) =
        (cl.drop (min cl.length pl.length)).length := by
      rw [List.countP_eq_length]
      intro a ha
      simpa using hB a ha
    rw [h1, h2, List.length_drop]
    omega
  · conv_lhs => rw [← List.take_append_drop (min cl.length pl.length) pl]
    rw [List.countP_append]
    have h1 : (pl.take (min cl.length pl.length)).countP
        (fun y => decide (¬ y.1 ∈ mpIds cs ps)) = 0 := by
      rw [List.countP_eq_zero]
      intro a ha
      simpa using hC a ha
    have h2 : (pl.drop (min cl.length pl.length)).countP
        (fun y => decide (¬ y.1 ∈ mpIds cs ps)) =
        (pl.drop (min cl.length pl.length)).length := by
      rw [List.countP_eq_length]
      intro a ha
      simpa using hD a ha
    rw [h1, h2, List.length_drop]
    omega

/-- Claim C1 witness: scenario B of the specification — two client records
in March 2024 of amount 50 against one provider record with the same key:
one pair is marked on each side, one client record stays unmatched. -/
theorem claim_C1_witness :
    let c₁ : ClientRecord := ⟨⟨2024, 3, 5⟩, (3, 2024), 50, [], [], [], [], []⟩
    let c₂ : ClientRecord := ⟨⟨2024, 3, 20⟩, (3, 2024), 50, [], [], [], [], []⟩
    let p₁ : ProviderRecord := ⟨⟨2024, 3, 12⟩, (3, 2024), 50, [], []⟩
    [(0, c₁), (1, c₂)].countP
        (fun x => decide (x.1 ∈ mcIds [c₁, c₂] [p₁])) = 1 ∧
    [(0, p₁)].countP
        (fun y => decide (y.1 ∈ mpIds [c₁, c₂] [p₁])) = 1 ∧
    [(0, c₁), (1, c₂)].countP
        (fun x => decide (¬ x.1 ∈ mcIds [c₁, c₂] [p₁])) = 1 := by
  intro c₁ c₂ p₁
  have h := claim_C1 [c₁, c₂] [p₁] (3, 2024, 50) [(0, c₁), (1, c₂)] [(0, p₁)]
    (by decide) (by decide)
  exact ⟨h.2.1, h.2.2.1, h.2.2.2.1⟩

/-! ## Partition completeness (claim C2) -/

theorem idxFrom_map_fst_nodup {α : Type} (n : Nat) (l : List α) :
    ((idxFrom n l).map Prod.fst).Nodup :=
  List.Nodup.map_on (fun x hx y hy h => idxFrom_fst_inj hx hy h) (idxFrom_nodup n l)

/-- Claim C2: the client records marked matched and `onlyInClient`
partition the client records — they are disjoint and together are exactly
all client records, where records are tracked by identity (their position,
which is unique even for value-equal records); symmetrically for the
provider side.  The reconciliation output is the unmatched side of the
partition, in order. -/
theorem claim_C2 (cs : List ClientRecord) (ps : List ProviderRecord) :
    ((compare_payments cs ps).1 = (only_in_client_idx cs ps).map Prod.snd) ∧
    ((withIdx cs).map Prod.fst).Nodup ∧
    List.Perm
      (((withIdx cs).filter (fun x => decide (x.1 ∈ mcIds cs ps))) ++
        only_in_client_idx cs ps) (withIdx cs) ∧
    (∀ x, ¬ (x ∈ (withIdx cs).filter (fun x => decide (x.1 ∈ mcIds cs ps)) ∧
        x ∈ only_in_client_idx cs ps)) ∧
    ((compare_payments cs ps).2 = (only_in_provider_idx cs ps).map Prod.snd) ∧
    ((withIdx ps).map Prod.fst).Nodup ∧
    List.Perm
      (((withIdx ps).filter (fun y => decide (y.1 ∈ mpIds cs ps))) ++
        only_in_provider_idx cs ps) (withIdx ps) ∧
    (∀ y, ¬ (y ∈ (withIdx ps).filter (fun y => decide (y.1 ∈ mpIds cs ps)) ∧
        y ∈ only_in_provider_idx cs ps)) := by
  refine ⟨rfl, idxFrom_map_fst_nodup 0 cs, ?_, ?_, rfl, idxFrom_map_fst_nodup 0 ps,
    ?_, ?_⟩
  · have h := List.filter_append_perm (fun x => decide (x.1 ∈ mcIds cs ps)) (withIdx cs)
    unfold only_in_client_idx
    simpa [decide_not] using h
  · rintro x ⟨h1, h2⟩
    have hm := of_decide_eq_true (List.mem_filter.mp h1).2
    have hn := of_decide_eq_true (List.mem_filter.mp h2).2
    exact hn hm
  · have h := List.filter_append_perm (fun y => decide (y.1 ∈ mpIds cs ps)) (withIdx ps)
    unfold only_in_provider_idx
    simpa [decide_not] using h
  · rintro y ⟨h1, h2⟩
    have hm := of_decide_eq_true (List.mem_filter.mp h1).2
    have hn := of_decide_eq_true (List.mem_filter.mp h2).2
    exact hn hm

/-- Claim C2 witness: the client-side partition permutation at the
concrete scenario of two client records against one provider record. -/
theorem claim_C2_witness :
    let c₁ : ClientRecord := ⟨⟨2024, 3, 5⟩, (3, 2024), 50, [], [], [], [], []⟩
    let c₂ : ClientRecord := ⟨⟨2024, 3, 20⟩, (3, 2024), 50, [], [], [], [], []⟩
    let p₁ : ProviderRecord := ⟨⟨2024, 3, 12⟩, (3, 2024), 50, [], []⟩
    List.Perm
      (((withIdx [c₁, c₂]).filter (fun x => decide (x.1 ∈ mcIds [c₁, c₂] [p₁]))) ++
        only_in_client_idx [c₁, c₂] [p₁]) (withIdx [c₁, c₂]) := by
  intro c₁ c₂ p₁
  exact (claim_C2 [c₁, c₂] [p₁]).2.2.1

/-! ## Sortedness and stability of the report listings (claim C3) -/

theorem filter_orderedInsert {α : Type} (r : α → α → Prop) [DecidableRel r]
    (p : α → Bool) (x : α) (s : List α)
    (hx : p x = true → ∀ b, p b = true → r x b) :
    (s.orderedInsert r x).filter p =
      if p x then x :: s.filter p else s.filter p := by
  rw [List.orderedInsert_eq_take_drop, List.filter_append]
  by_cases hpx : p x
  · rw [if_pos hpx]
    have htw : (s.takeWhile (fun b => decide (¬ r x b))).filter p = [] := by
      rw [List.filter_eq_nil_iff]
      intro a ha hpa
      have h2 := List.mem_takeWhile_imp ha
      simp only [decide_eq_true_eq] at h2
      exact h2 (hx hpx a hpa)
    rw [htw, List.filter_cons_of_pos hpx]
    conv_rhs => rw [← List.takeWhile_append_dropWhile (fun b => decide (¬ r x b)) s]
    rw [List.filter_append, htw]
    simp
  · rw [if_neg hpx, List.filter_cons_of_neg hpx]
    conv_rhs => rw [← List.takeWhile_append_dropWhile (fun b => decide (¬ r x b)) s]
    rw [List.filter_append]

/-- A stable sort leaves the relative order of equivalent elements (those
selected by a filter on which `r` always holds) unchanged. -/
theorem filter_insertionSort {α : Type} (r : α → α → Prop) [DecidableRel r]
    (p : α → Bool) (hsame : ∀ x b, p x = true → p b = true → r x b) (l : List α) :
    (List.insertionSort r l).filter p = l.filter p := by
  induction l with
  | nil => rfl
  | cons x xs ih =>
    rw [List.insertionSort,
      filter_orderedInsert r p x _ (fun hpx b hpb => hsame x b hpx hpb), ih,
      List.filter_cons]

/-- Claim C3: the listings printed by the report — the reconciliation
results sorted by `fecha` as `print_report` does — are sorted by date
ascending, and the sort is stable: records with equal dates keep their
relative order from the engine output (which is original input order). -/
theorem claim_C3 (cs : List ClientRecord) (ps : List ProviderRecord) :
    List.Sorted clientDateLe (report_client_listing (compare_payments cs ps).1) ∧
    (∀ d : PyDate,
      (report_client_listing (compare_payments cs ps).1).filter
          (fun r => decide (r.fecha = d)) =
        (compare_payments cs ps).1.filter (fun r => decide (r.fecha = d))) ∧
    List.Sorted providerDateLe (report_provider_listing (compare_payments cs ps).2) ∧
    (∀ d : PyDate,
      (report_provider_listing (compare_payments cs ps).2).filter
          (fun r => decide (r.fecha = d)) =
        (compare_payments cs ps).2.filter (fun r => decide (r.fecha = d))) := by
  refine ⟨List.sorted_insertionSort clientDateLe _, ?_,
    List.sorted_insertionSort providerDateLe _, ?_⟩
  · intro d
    refine filter_insertionSort clientDateLe _ ?_ _
    intro x b hx hb
    have h1 := of_decide_eq_true hx
    have h2 := of_decide_eq_true hb
    unfold clientDateLe pyDateLe
    rw [h1, h2]
    omega
  · intro d
    refine filter_insertionSort providerDateLe _ ?_ _
    intro x b hx hb
    have h1 := of_decide_eq_true hx
    have h2 := of_decide_eq_true hb
    unfold providerDateLe pyDateLe
    rw [h1, h2]
    omega

/-! ## Loader lemmas (claims C4, C7, C8) -/

theorem load_client_cons_convert_error {row : Row} {rest : List Row} {e : String}
    (h : client_row_convert row = .error e) :
    load_client_file (row :: rest) = .error e := by
  simp only [load_client_file]
  rw [h]
  rfl

theorem load_provider_cons_convert_error {row : Row} {rest : List Row} {e : String}
    (h : provider_row_convert row = .error e) :
    load_provider_file (row :: rest) = .error e := by
  simp only [load_provider_file]
  rw [h]
  rfl

/-- A successful client load is the `filterMap` of the per-row
conversion: order preserved, each record from its row, no reordering,
no deduplication, and no row raised. -/
theorem load_client_eq_filterMap : ∀ {rows : List Row} {l : List ClientRecord},
    load_client_file rows = .ok l →
    (∀ row ∈ rows, ∃ o, client_row_convert row = .ok o) ∧
      l = rows.filterMap client_row_opt := by
  intro rows
  induction rows with
  | nil =>
    intro l h
    simp only [load_client_file] at h
    injection h with h2
    exact ⟨by simp, by simp [← h2]⟩
  | cons row rest ih =>
    intro l h
    simp only [load_client_file] at h
    cases hcv : client_row_convert row with
    | error e => rw [hcv] at h; cases h
    | ok orec =>
      rw [hcv] at h
      cases hld : load_client_file rest with
      | error e => rw [hld] at h; cases h
      | ok others =>
        rw [hld] at h
        obtain ⟨hall, hl⟩ := ih hld
        have hopt : client_row_opt row = orec := by
          unfold client_row_opt
          rw [hcv]
        refine ⟨?_, ?_⟩
        · intro r hr
          rcases List.mem_cons.mp hr with rfl | hr2
          · exact ⟨orec, hcv⟩
          · exact hall r hr2
        · rw [List.filterMap_cons, hopt]
          cases orec with
          | none =>
            injection h with h2
            rw [← h2, hl]
          | some r =>
            injection h with h2
            rw [← h2, hl]

theorem load_provider_eq_filterMap : ∀ {rows : List Row} {l : List ProviderRecord},
    load_provider_file rows = .ok l →
    (∀ row ∈ rows, ∃ o, provider_row_convert row = .ok o) ∧
      l = rows.filterMap provider_row_opt := by
  intro rows
  induction rows with
  | nil =>
    intro l h
    simp only [load_provider_file] at h
    injection h with h2
    exact ⟨by simp, by simp [← h2]⟩
  | cons row rest ih =>
    intro l h
    simp only [load_provider_file] at h
    cases hcv : provider_row_convert row with
    | error e => rw [hcv] at h; cases h
    | ok orec =>
      rw [hcv] at h
      cases hld : load_provider_file rest with
      | error e => rw [hld] at h; cases h
      | ok others =>
        rw [hld] at h
        obtain ⟨hall, hl⟩ := ih hld
        have hopt : provider_row_opt row = orec := by
          unfold provider_row_opt
          rw [hcv]
        refine ⟨?_, ?_⟩
        · intro r hr
          rcases List.mem_cons.mp hr with rfl | hr2
          · exact ⟨orec, hcv⟩
          · exact hall r hr2
        · rw [List.filterMap_cons, hopt]
          cases orec with
          | none =>
            injection h with h2
            rw [← h2, hl]
          | some r =>
            injection h with h2
            rw [← h2, hl]

theorem filterMap_length_eq_iff {α β : Type} (f : α → Option β) (l : List α) :
    (l.filterMap f).length = l.length ↔ ∀ a ∈ l, (f a).isSome := by
  induction l with
  | nil => simp
  | cons a as ih =>
    rw [List.filterMap_cons]
    cases hf : f a with
    | none =>
      simp only [List.length_cons, List.mem_cons]
      constructor
      · intro h
        exfalso
        have hle := List.length_filterMap_le f as
        omega
      · intro h
        have h2 := h a (Or.inl rfl)
        rw [hf] at h2
        cases h2
    | some b =>
      simp only [List.length_cons, List.mem_cons]
      constructor
      · intro h
        intro x hx
        rcases hx with rfl | hx2
        · rw [hf]; rfl
        · exact ih.mp (by omega) x hx2
      · intro h
        have h2 := ih.mpr (fun x hx => h x (Or.inr hx))
        omega

theorem client_row_keeps_iff (row : Row) :
    client_row_keeps row ↔ (client_row_opt row).isSome := by
  unfold client_row_keeps client_row_opt
  cases h : client_row_convert row with
  | error e => simp
  | ok o => cases o <;> simp

theorem provider_row_keeps_iff (row : Row) :
    provider_row_keeps row ↔ (provider_row_opt row).isSome := by
  unfold provider_row_keeps provider_row_opt
  cases h : provider_row_convert row with
  | error e => simp
  | ok o => cases o <;> simp

/-- Claim C8: a successful load is exactly the in-order `filterMap` of the
rows (stable order, one record per parsed row, no reordering or
deduplication), its length is at most the row count, with equality iff
every row parses. -/
theorem claim_C8 (rows : List Row) :
    (∀ l, load_client_file rows = .ok l →
      l = rows.filterMap client_row_opt ∧
      l.length ≤ rows.length ∧
      (l.length = rows.length ↔ ∀ row ∈ rows, client_row_keeps row)) ∧
    (∀ l, load_provider_file rows = .ok l →
      l = rows.filterMap provider_row_opt ∧
      l.length ≤ rows.length ∧
      (l.length = rows.length ↔ ∀ row ∈ rows, provider_row_keeps row)) := by
  constructor
  · intro l h
    obtain ⟨-, hl⟩ := load_client_eq_filterMap h
    subst hl
    refine ⟨rfl, List.length_filterMap_le _ _, ?_⟩
    rw [filterMap_length_eq_iff]
    constructor
    · intro h2 row hrow
      rw [client_row_keeps_iff]
      exact h2 row hrow
    · intro h2 row hrow
      rw [← client_row_keeps_iff]
      exact h2 row hrow
  · intro l h
    obtain ⟨-, hl⟩ := load_provider_eq_filterMap h
    subst hl
    refine ⟨rfl, List.length_filterMap_le _ _, ?_⟩
    rw [filterMap_length_eq_iff]
    constructor
    · intro h2 row hrow
      rw [provider_row_keeps_iff]
      exact h2 row hrow
    · intro h2 row hrow
      rw [← provider_row_keeps_iff]
      exact h2 row hrow

theorem except_bind_ok {epsilon α β : Type} (a : α) (f : α → Except epsilon β) :
    (Except.ok a : Except epsilon α) >>= f = f a := rfl

/-- Claim C8 witness: a two-row client source where the first row parses
and the second has an unparseable date loads to exactly the in-order
`filterMap`, of length at most the row count. -/
theorem claim_C8_witness :
    let row1 : Row :=
      [("Fecha", ['5', '/', '3', '/', '2', '0', '2', '4']), ("Monto", ['1', '0', '0']),
        ("Descripcion", ['d']), ("Tipo_de_Transferencia", ['t']),
        ("Cuenta", ['c']), ("Numero", ['n'])]
    let row2 : Row :=
      [("Fecha", ['b', 'a', 'd']), ("Monto", ['1', '0', '0']),
        ("Descripcion", ['d']), ("Tipo_de_Transferencia", ['t']),
        ("Cuenta", ['c']), ("Numero", ['n'])]
    let r1 : ClientRecord :=
      { fecha := ⟨2024, 3, 5⟩
        mes_ano := (3, 2024)
        monto := 100
        descripcion := ['d']
        tipo := ['t']
        cuenta := ['c']
        numero := ['n']
        fecha_str := ['5', '/', '3', '/', '2', '0', '2', '4'] }
    [r1] = [row1, row2].filterMap client_row_opt ∧ [r1].length ≤ 2 := by
  intro row1 row2 r1
  have hq : parse_amount ['1', '0', '0'] = some 100 := by
    have hd : digitsToNat ['1', '0', '0'] = 100 := by decide
    have h := parse_amount_digits ['1', '0', '0'] ['1', '0', '0'] rfl
      (by decide) (by decide)
    rw [hd] at h
    simpa using h
  have hcv1 : client_row_convert row1 = .ok (some r1) := by
    simp only [client_row_convert]
    rw [show rowGet row1 "Fecha" = .ok ['5', '/', '3', '/', '2', '0', '2', '4'] from rfl,
      except_bind_ok,
      show rowGet row1 "Monto" = .ok ['1', '0', '0'] from rfl, except_bind_ok,
      show parse_date ['5', '/', '3', '/', '2', '0', '2', '4'] =
        some ⟨2024, 3, 5⟩ from by decide, hq]
    dsimp only
    rw [if_pos (by norm_num : (100 : ℚ) ≠ 0)]
    rfl
  have hcv2 : client_row_convert row2 = .ok none := by
    simp only [client_row_convert]
    rw [show rowGet row2 "Fecha" = .ok ['b', 'a', 'd'] from rfl, except_bind_ok,
      show rowGet row2 "Monto" = .ok ['1', '0', '0'] from rfl, except_bind_ok,
      show parse_date ['b', 'a', 'd'] = none from by decide]
    rfl
  have hload : load_client_file [row1, row2] = .ok [r1] := by
    simp only [load_client_file]
    rw [hcv1, except_bind_ok, hcv2, except_bind_ok]
    rfl
  have h := (claim_C8 [row1, row2]).1 [r1] hload
  exact ⟨h.1, h.2.1⟩

/-- Claim C7 (amended): if the source has at least one row and the
`Monto` column (accessed unconditionally for every row) is missing, the
client load fails with a propagated `KeyError` before producing any
record list. -/
theorem claim_C7 (rows : List Row) (hne : rows ≠ [])
    (hmiss : ∀ row ∈ rows, lookupCol row "Monto" = none) :
    ∃ e, load_client_file rows = .error e := by
  cases rows with
  | nil => cases hne rfl
  | cons row rest =>
    have hm := hmiss row (List.mem_cons_self row rest)
    have hconv : ∃ e, client_row_convert row = .error e := by
      simp only [client_row_convert]
      cases hf : rowGet row "Fecha" with
      | error e => exact ⟨e, rfl⟩
      | ok fs =>
        have hmv : rowGet row "Monto" = .error "Monto" := by
          unfold rowGet
          rw [hm]
        exact ⟨"Monto", by rw [except_bind_ok, hmv]; rfl⟩
    obtain ⟨e, he⟩ := hconv
    exact ⟨e, load_client_cons_convert_error he⟩

/-- Claim C7 counterexample: a client source missing the required
`Descripcion` column whose single row has an unparseable date loads
successfully (to the empty record list) instead of failing — the row is
silently skipped before the missing column is ever accessed. -/
theorem claim_C7_counterexample :
    let row0 : Row :=
      [("Fecha", ['b', 'a', 'd']), ("Monto", ['1', '0', '0']),
        ("Tipo_de_Transferencia", ['t']), ("Cuenta", ['c']), ("Numero", ['n'])]
    lookupCol row0 "Descripcion" = none ∧ load_client_file [row0] = .ok [] := by
  intro row0
  exact ⟨rfl, rfl⟩

/-- Claim C7 witness: the amended claim applied to a one-row source
missing `Monto`. -/
theorem claim_C7_witness :
    ∃ e, load_client_file [[("Fecha", ['5', '/', '3', '/', '2', '0', '2', '4'])]] =
      .error e :=
  claim_C7 _ (by decide) (by decide)

/-! ## The match key compares parsed values, not texts (claim C10) -/

/-- Every record lands in the bucket of its own key. -/
theorem mem_own_client_group (cs : List ClientRecord) (x : Nat × ClientRecord)
    (hx : x ∈ withIdx cs) :
    ∃ L, lookupKey (client_key x.2) (client_groups cs) = some L ∧ x ∈ L := by
  have hxf : x ∈ (withIdx cs).filter (fun y => decide (client_key y.2 = client_key x.2)) :=
    List.mem_filter.mpr ⟨hx, by simp⟩
  have hne : ¬ ((withIdx cs).filter
      (fun y => decide (client_key y.2 = client_key x.2))).isEmpty := by
    rw [List.isEmpty_iff]
    intro h0
    rw [h0] at hxf
    cases hxf
  have h := lookup_group (fun y => client_key y.2) (withIdx cs) (client_key x.2)
  rw [show group_by_month_and_amount (fun y => client_key y.2) (withIdx cs) =
    client_groups cs from rfl] at h
  exact ⟨_, by rw [h, if_neg hne], hxf⟩

/-- Claim C10: the match group key compares amounts by exact equality of
the parsed numeric value, not of the original text: `1,234.56` and
`1234.56`, and `100` and `100.00`, parse to the same value and therefore
to the same key component, two records share a key exactly when their
month, year and parsed amounts coincide, records with different parsed
amounts never share a key, and every record is bucketed under its own
key. -/
theorem claim_C10 :
    (parse_amount ('1' :: ',' :: '2' :: '3' :: '4' :: '.' :: '5' :: '6' :: []) =
      parse_amount ('1' :: '2' :: '3' :: '4' :: '.' :: '5' :: '6' :: [])) ∧
    (parse_amount ('1' :: '0' :: '0' :: []) =
      parse_amount ('1' :: '0' :: '0' :: '.' :: '0' :: '0' :: [])) ∧
    (parse_amount ('1' :: ',' :: '2' :: '3' :: '4' :: '.' :: '5' :: '6' :: []) =
      some ((30864 : ℚ) / 25)) ∧
    (∀ (c : ClientRecord) (p : ProviderRecord),
      client_key c = provider_key p ↔ c.mes_ano = p.mes_ano ∧ c.monto = p.monto) ∧
    (∀ (c : ClientRecord) (p : ProviderRecord), c.monto ≠ p.monto →
      client_key c ≠ provider_key p) ∧
    (∀ (cs : List ClientRecord) (x : Nat × ClientRecord), x ∈ withIdx cs →
      ∃ L, lookupKey (client_key x.2) (client_groups cs) = some L ∧ x ∈ L) := by
  have hkey : ∀ (c : ClientRecord) (p : ProviderRecord),
      client_key c = provider_key p ↔ c.mes_ano = p.mes_ano ∧ c.monto = p.monto := by
    intro c p
    unfold client_key provider_key
    rw [Prod.ext_iff, Prod.ext_iff, Prod.ext_iff]
    tauto
  refine ⟨rfl, ?_, ?_, hkey, ?_, mem_own_client_group⟩
  · have h1 : parse_amount ('1' :: '0' :: '0' :: []) =
        some (((1 : ℤ) : ℚ) * mantissaVal ['1', '0', '0'] []) := rfl
    have h2 : parse_amount ('1' :: '0' :: '0' :: '.' :: '0' :: '0' :: []) =
        some (((1 : ℤ) : ℚ) * mantissaVal ['1', '0', '0'] ['0', '0']) := rfl
    have hz : digitsToNat ([] : List Char) = 0 := rfl
    have hz2 : digitsToNat ['0', '0'] = 0 := by decide
    rw [h1, h2]
    norm_num [mantissaVal, hz, hz2]
  · have h1 : parse_amount ('1' :: ',' :: '2' :: '3' :: '4' :: '.' :: '5' :: '6' :: []) =
        some (((1 : ℤ) : ℚ) * mantissaVal ['1', '2', '3', '4'] ['5', '6']) := rfl
    have hd1 : digitsToNat ['1', '2', '3', '4'] = 1234 := by decide
    have hd2 : digitsToNat ['5', '6'] = 56 := by decide
    rw [h1]
    norm_num [mantissaVal, hd1, hd2]
  · intro c p hne h
    exact hne ((hkey c p).mp h).2

/-- Claim C10 witness: the bucketing clause applied to a concrete
record. -/
theorem claim_C10_witness :
    let c₁ : ClientRecord := ⟨⟨2024, 3, 5⟩, (3, 2024), 50, [], [], [], [], []⟩
    ∃ L, lookupKey (client_key c₁) (client_groups [c₁]) = some L ∧ (0, c₁) ∈ L := by
  intro c₁
  exact claim_C10.2.2.2.2.2 [c₁] (0, c₁) (by decide)

end CompararPagos
